import Mathlib

/-!
# Verification of the Airbus price-dashboard analytics core

A shallow embedding of `src/app.py` (pandas/streamlit dashboard).  Cell
values that pandas represents as possibly-NaN are modelled as `Option ℚ`;
dates are modelled as integers (their ordinal), since only ordering and
equality of parsed dates matter to the pipeline.  The raw file is modelled
at the post-cell-parse level: each raw row carries the result of
`pd.to_datetime(..., errors="coerce")` on its date cell and of
`pd.to_numeric(..., errors="coerce")` on each numeric cell, i.e. an
`Option` that is `none` exactly when the cell was missing or unparseable.
-/

/-- One row of the parsed table, before `dropna`: every cell may be
missing/unparseable (`none`), mirroring `errors="coerce"` in
`pd.to_datetime` / `pd.to_numeric` (src/app.py lines 96-98). -/
structure RawRow where
  date : Option Int
  ouv : Option ℚ
  haut : Option ℚ
  bas : Option ℚ
  clot : Option ℚ
  vol : Option ℚ
deriving DecidableEq

/-- One row after `dropna(subset=["date","clot"])`: `date` and `clot` are
guaranteed present, the other cells may still be missing. -/
structure Bar where
  date : Int
  ouv : Option ℚ
  haut : Option ℚ
  bas : Option ℚ
  clot : ℚ
  vol : Option ℚ
deriving DecidableEq

/-- `dropna(subset=["date","clot"])` on a single row: keep the row iff both
`date` and `clot` parsed. -/
def dropnaRow (r : RawRow) : Option Bar :=
  match r.date, r.clot with
  | some d, some c => some ⟨d, r.ouv, r.haut, r.bas, c, r.vol⟩
  | _, _ => none

/-- `df.dropna(subset=["date","clot"])` (src/app.py line 100). -/
def cleanRows (raws : List RawRow) : List Bar :=
  raws.filterMap dropnaRow

/-- Comparison of bars by date, the sort key of `sort_values("date")`. -/
def dateLE (a b : Bar) : Prop := a.date ≤ b.date

instance : DecidableRel dateLE := fun a b => inferInstanceAs (Decidable (a.date ≤ b.date))

instance : IsTotal Bar dateLE := ⟨fun a b => Int.le_total a.date b.date⟩

instance : IsTrans Bar dateLE := ⟨fun _ _ _ h₁ h₂ => le_trans h₁ h₂⟩

/-- `df.sort_values("date")` (src/app.py line 100): sort ascending by date. -/
def sortByDate (l : List Bar) : List Bar := List.insertionSort dateLE l

/-- The failures the pipeline can signal: `FileNotFoundError` raised by
`load_data` (line 101), and the `st.error`/`st.stop` on fewer than 15
filtered rows (lines 114-116). -/
inductive Err where
  | dataUnavailable
  | insufficientData
deriving DecidableEq

/-- `load_data` (src/app.py lines 89-101).  The file-probing loop is
modelled by the `Option` argument: `none` when no candidate file exists
(the function raises `FileNotFoundError`), `some raws` when a file was
found and parsed into raw rows.  On success it returns the cleaned, sorted
table — even when that table is empty. -/
def load_data (source : Option (List RawRow)) : Except Err (List Bar) :=
  match source with
  | none => .error .dataUnavailable
  | some raws => .ok (sortByDate (cleanRows raws))

-- ### Sidebar parameters and the date filter

/-- The slider parameters (src/app.py lines 109-111): short-MA window
`maF`, long-MA window `maS`, volatility window `vol_w`. -/
structure Params where
  maF : ℕ
  maS : ℕ
  vol_w : ℕ
deriving DecidableEq

/-- Inclusive date-range filter
`df[(df["date"].dt.date>=start) & (df["date"].dt.date<=end)]`
(src/app.py line 113). -/
def filterRange (s e : Int) (l : List Bar) : List Bar :=
  l.filter fun b => decide (s ≤ b.date) && decide (b.date ≤ e)

-- ### Feature engine (src/app.py lines 119-124, 167)

/-- Helper for `pct_change`: `prev` is the previous close. -/
def pctAux (prev : ℚ) : List ℚ → List (Option ℚ)
  | [] => []
  | c :: cs => some (c / prev - 1) :: pctAux c cs

/-- `data["clot"].pct_change()` (line 119): the first entry is NaN, entry
`i ≥ 1` is `clot[i]/clot[i-1] - 1`. -/
def pct_change : List ℚ → List (Option ℚ)
  | [] => []
  | c :: cs => none :: pctAux c cs

/-- `series.rolling(w).mean()` on a NaN-free series (lines 120-121): with
the default `min_periods = w`, entry `i` is the mean of the last `w`
values when at least `w` rows are available, else NaN. -/
def rollingMean (w : ℕ) (s : List ℚ) : List (Option ℚ) :=
  (List.range s.length).map fun i =>
    let win := (s.take (i + 1)).drop (i + 1 - w)
    if w ≤ win.length then some (win.sum / (win.length : ℚ)) else none

/-- Sample variance (`ddof = 1`), the square of pandas' `std`. -/
def sampleVar (xs : List ℚ) : ℚ :=
  ((xs.map fun x => (x - xs.sum / (xs.length : ℚ)) ^ 2).sum) / ((xs.length : ℚ) - 1)

/-- `series.rolling(v).std()` on a possibly-NaN series (line 124), squared
to stay in exact arithmetic: with `min_periods = v`, entry `i` looks at the
last `min (i+1) v` entries, keeps the non-NaN ones, and requires at least
`v` of them; `std` with `ddof = 1` is itself NaN on fewer than two
observations.  The entry is the *square* of pandas' value. -/
def rollingStd2 (v : ℕ) (s : List (Option ℚ)) : List (Option ℚ) :=
  (List.range s.length).map fun i =>
    let vals := ((s.take (i + 1)).drop (i + 1 - v)).filterMap id
    if v ≤ vals.length then
      if 2 ≤ vals.length then some (sampleVar vals) else none
    else none

/-- Helper for `cummax`: `m` is the running maximum so far. -/
def cummaxAux (m : ℚ) : List ℚ → List ℚ
  | [] => []
  | c :: cs => max m c :: cummaxAux (max m c) cs

/-- `data["clot"].cummax()` (line 122): running maximum. -/
def cummax : List ℚ → List ℚ
  | [] => []
  | c :: cs => c :: cummaxAux c cs

/-- Elementwise `>` of two possibly-NaN series: pandas evaluates any
comparison involving NaN as `False` (line 167). -/
def optGt (a b : Option ℚ) : Bool :=
  match a, b with
  | some x, some y => decide (y < x)
  | _, _ => false

/-- The derived per-row series the app adds to `data` (lines 119-124 and
167).  `volR2` holds the square of `volR` (and `252` in place of
`√252²`), keeping every value rational. -/
structure Derived where
  ret : List (Option ℚ)
  maF : List (Option ℚ)
  maS : List (Option ℚ)
  peak : List ℚ
  dd : List ℚ
  volR2 : List (Option ℚ)
  reg : List Bool
deriving DecidableEq

/-- The feature block (src/app.py lines 119-124) plus the regime flag
(line 167), computed from the filtered table and the slider parameters. -/
def compute (data : List Bar) (p : Params) : Derived where
  ret := pct_change (data.map Bar.clot)
  maF := rollingMean p.maF (data.map Bar.clot)
  maS := rollingMean p.maS (data.map Bar.clot)
  peak := cummax (data.map Bar.clot)
  dd := List.zipWith (fun c pk => c / pk - 1) (data.map Bar.clot) (cummax (data.map Bar.clot))
  volR2 := (rollingStd2 p.vol_w (pct_change (data.map Bar.clot))).map (Option.map fun x => 252 * x)
  reg := List.zipWith optGt (rollingMean p.maF (data.map Bar.clot))
    (rollingMean p.maS (data.map Bar.clot))

-- ### Summary KPIs (src/app.py lines 126-131)

/-- pandas `Series.max()` with `skipna`: NaN on an empty selection. -/
def listMax? (l : List ℚ) : Option ℚ :=
  match l with
  | [] => none
  | x :: xs => some (xs.foldl max x)

/-- pandas `Series.min()` with `skipna`: NaN on an empty selection. -/
def listMin? (l : List ℚ) : Option ℚ :=
  match l with
  | [] => none
  | x :: xs => some (xs.foldl min x)

/-- pandas `Series.mean()` with `skipna`: NaN on an empty selection. -/
def mean? (l : List ℚ) : Option ℚ :=
  match l with
  | [] => none
  | _ :: _ => some (l.sum / (l.length : ℚ))

/-- The six KPI scalars (lines 126-131).  `vol_ann2` is the square of
`vol_ann` (NaN-skipping sample variance of the returns, annualized by
`252`); `max_high` and `avg_vol` skip missing cells. -/
structure Kpis where
  last_close : ℚ
  perf : ℚ
  max_high : Option ℚ
  avg_vol : Option ℚ
  vol_ann2 : Option ℚ
  max_dd : Option ℚ
deriving DecidableEq

/-- `last_close`, `perf`, `max_high`, `avg_vol`, `vol_ann`, `max_dd`
(src/app.py lines 126-131), reading the filtered table and the derived
series. -/
def summarize (data : List Bar) (d : Derived) : Kpis where
  last_close := (data.map Bar.clot).getLastD 0
  perf := (data.map Bar.clot).getLastD 0 / (data.map Bar.clot).headD 0 - 1
  max_high := listMax? (data.filterMap Bar.haut)
  avg_vol := mean? (data.filterMap Bar.vol)
  vol_ann2 :=
    if 2 ≤ (d.ret.filterMap id).length then some (252 * sampleVar (d.ret.filterMap id)) else none
  max_dd := listMin? d.dd

-- ### Regime segmentation (src/app.py lines 176-187)

/-- One shaded regime band: inclusive index range into the filtered table
plus the regime flag its colour encodes. -/
structure RegimeInterval where
  startIdx : ℕ
  endIdx : ℕ
  regime : Bool
deriving DecidableEq

/-- The body of the `add_vrect` loop (lines 176-187), walking the regime
column: `prev` is `reg[i-1]`, `s` the start of the current band, `i` the
current index, and the list argument the regimes from index `i` on.  On a
change a band `[s, i-1]` coloured by `reg[i-1]` is emitted; after the loop
a final band `[s, n-1]` coloured by the last regime is emitted. -/
def segGo (prev : Bool) (s i : ℕ) : List Bool → List RegimeInterval
  | [] => [⟨s, i - 1, prev⟩]
  | r :: rest =>
    if r ≠ prev then ⟨s, i - 1, prev⟩ :: segGo r i (i + 1) rest
    else segGo prev s (i + 1) rest

/-- The whole shading pass: `s` starts at 0 and the loop runs `i` from 1
to `len(data) - 1` (src/app.py lines 176-187). -/
def segmentRegimes : List Bool → List RegimeInterval
  | [] => []
  | r :: rest => segGo r 0 1 rest

-- ### The whole per-render pipeline

/-- One render cycle of the script: load (lines 89-103), filter and
minimum-size check (lines 113-116), features (119-124, 167), KPIs
(126-131), regime bands (176-187).  A failure aborts the cycle before any
later artifact is produced, exactly as `raise` / `st.stop()` do. -/
def pipeline (source : Option (List RawRow)) (s e : Int) (p : Params) :
    Except Err (Derived × Kpis × List RegimeInterval) :=
  match load_data source with
  | .error er => .error er
  | .ok df =>
    let data := filterRange s e df
    if data.length < 15 then .error .insufficientData
    else
      let d := compute data p
      .ok (d, summarize data d, segmentRegimes d.reg)

/-- The indices covered by a list of bands, in order: each band contributes
its inclusive index range. -/
def rangesOf (ivs : List RegimeInterval) : List ℕ :=
  (ivs.map fun iv => List.range' iv.startIdx (iv.endIdx + 1 - iv.startIdx)).flatten

-- ### Lemmas about the loader's ordering guarantees

theorem cleanRows_perm_sortByDate (l : List Bar) : (sortByDate l).Perm l :=
  List.perm_insertionSort dateLE l

theorem sortByDate_sorted (l : List Bar) : List.Sorted dateLE (sortByDate l) :=
  List.sorted_insertionSort dateLE l

/-- Combine two pairwise facts on one list. -/
theorem pairwise_and_of {α : Type} {R S : α → α → Prop} :
    ∀ {l : List α}, l.Pairwise R → l.Pairwise S → l.Pairwise fun a b => R a b ∧ S a b
  | [], _, _ => List.Pairwise.nil
  | _ :: _, .cons hR hRs, .cons hS hSs =>
      List.Pairwise.cons (fun b hb => ⟨hR b hb, hS b hb⟩) (pairwise_and_of hRs hSs)

-- ### C1: behaviour of the loader on a table with zero valid rows

/-- **C1, counterexample.**  A source whose parsed table has a single row
with unparseable date cleans to zero rows, yet `load_data` returns the
empty table successfully — it does not fail with a `DataMalformed` error
(no such error exists in the code: the only `raise` is `FileNotFoundError`,
src/app.py line 101). -/
theorem load_data_zero_rows_returns_empty :
    cleanRows [⟨none, none, none, none, some 1, none⟩] = [] ∧
      load_data (some [⟨none, none, none, none, some 1, none⟩]) = Except.ok [] :=
  ⟨rfl, rfl⟩

/-- **C1, amended.**  When the parsed table cleans to zero rows,
`load_data` returns the empty table (it does not fail), and the render
cycle then fails downstream with `InsufficientData` at the fewer-than-15
row check (src/app.py lines 114-116), for every parameter set. -/
theorem load_data_empty_clean_insufficient (raws : List RawRow)
    (h : cleanRows raws = []) (s e : Int) (p : Params) :
    load_data (some raws) = Except.ok [] ∧
      pipeline (some raws) s e p = Except.error Err.insufficientData := by
  have hld : load_data (some raws) = Except.ok [] := by
    simp [load_data, sortByDate, h, List.insertionSort]
  refine ⟨hld, ?_⟩
  simp [pipeline, hld, filterRange]

/-- Witness for `load_data_empty_clean_insufficient` at a concrete
one-bad-row source. -/
theorem load_data_empty_clean_insufficient_witness :
    load_data (some [⟨none, none, none, none, some 1, none⟩]) = Except.ok [] ∧
      pipeline (some [⟨none, none, none, none, some 1, none⟩]) 0 9 ⟨2, 3, 2⟩ =
        Except.error Err.insufficientData :=
  load_data_empty_clean_insufficient [⟨none, none, none, none, some 1, none⟩] rfl 0 9 ⟨2, 3, 2⟩

-- ### C2: ordering of dates in the loaded table

/-- **C2, counterexample.**  Two parseable rows sharing the date `5` both
survive `dropna` and `sort_values` (src/app.py line 100 drops no
duplicates), so the loaded table has a consecutive pair with equal — not
strictly increasing — dates. -/
theorem load_data_duplicate_dates_survive :
    load_data (some [⟨some 5, none, none, none, some 1, none⟩,
        ⟨some 5, none, none, none, some 2, none⟩]) =
      Except.ok (sortByDate (cleanRows [⟨some 5, none, none, none, some 1, none⟩,
        ⟨some 5, none, none, none, some 2, none⟩])) ∧
      ¬ List.Chain' (fun a b : Bar => a.date < b.date)
        (sortByDate (cleanRows [⟨some 5, none, none, none, some 1, none⟩,
          ⟨some 5, none, none, none, some 2, none⟩])) := by
  refine ⟨rfl, ?_⟩
  have h : sortByDate (cleanRows [⟨some 5, none, none, none, some 1, none⟩,
      ⟨some 5, none, none, none, some 2, none⟩]) =
      [⟨5, none, none, none, 1, none⟩, ⟨5, none, none, none, 2, none⟩] := by decide
  rw [h]
  intro hc
  rw [List.chain'_cons] at hc
  exact absurd hc.1 (by decide)

/-- **C2, amended.**  The loaded table is sorted by date; consecutive
dates are *strictly* increasing provided the valid (cleaned) rows carry
pairwise-distinct dates — duplicate dates in the source survive loading. -/
theorem load_data_strict_dates (raws : List RawRow) (df : List Bar)
    (h : load_data (some raws) = Except.ok df)
    (hnd : ((cleanRows raws).map Bar.date).Nodup) :
    List.Chain' (fun a b : Bar => a.date < b.date) df := by
  have hdf : df = sortByDate (cleanRows raws) := by
    simpa [load_data, eq_comm] using h
  subst hdf
  have hsorted : List.Pairwise dateLE (sortByDate (cleanRows raws)) :=
    sortByDate_sorted (cleanRows raws)
  have hperm : ((sortByDate (cleanRows raws)).map Bar.date).Perm
      ((cleanRows raws).map Bar.date) :=
    (cleanRows_perm_sortByDate (cleanRows raws)).map Bar.date
  have hnd' : ((sortByDate (cleanRows raws)).map Bar.date).Nodup :=
    hperm.nodup_iff.mpr hnd
  have hne : (sortByDate (cleanRows raws)).Pairwise fun a b => a.date ≠ b.date :=
    List.pairwise_map.mp hnd'
  have : (sortByDate (cleanRows raws)).Pairwise fun a b => a.date < b.date :=
    (pairwise_and_of hsorted hne).imp fun hab => lt_of_le_of_ne hab.1 hab.2
  exact this.chain'

/-- Witness for `load_data_strict_dates`: two rows with distinct dates,
loaded and strictly ordered. -/
theorem load_data_strict_dates_witness :
    List.Chain' (fun a b : Bar => a.date < b.date)
      (sortByDate (cleanRows [⟨some 7, none, none, none, some 1, none⟩,
        ⟨some 4, none, none, none, some 2, none⟩])) :=
  load_data_strict_dates [⟨some 7, none, none, none, some 1, none⟩,
    ⟨some 4, none, none, none, some 2, none⟩] _ rfl (by decide)

-- ### Generic indexing helpers

theorem getD_map_range {α : Type} (f : ℕ → α) (d : α) {n i : ℕ} (h : i < n) :
    ((List.range n).map f).getD i d = f i := by
  have h' : i < ((List.range n).map f).length := by simpa using h
  rw [List.getD_eq_getElem _ _ h', List.getElem_map, List.getElem_range]

theorem getD_zipWith {α β γ : Type} (f : α → β → γ) (l₁ : List α) (l₂ : List β)
    (d₁ : α) (d₂ : β) (d : γ) {i : ℕ} (h₁ : i < l₁.length) (h₂ : i < l₂.length) :
    (List.zipWith f l₁ l₂).getD i d = f (l₁.getD i d₁) (l₂.getD i d₂) := by
  have h : i < (List.zipWith f l₁ l₂).length := by
    rw [List.length_zipWith]; omega
  rw [List.getD_eq_getElem _ _ h, List.getD_eq_getElem _ _ h₁, List.getD_eq_getElem _ _ h₂,
    List.getElem_zipWith]

-- ### Length lemmas for the derived series

theorem length_rollingMean (w : ℕ) (s : List ℚ) : (rollingMean w s).length = s.length := by
  simp [rollingMean]

theorem length_rollingStd2 (v : ℕ) (s : List (Option ℚ)) :
    (rollingStd2 v s).length = s.length := by
  simp [rollingStd2]

theorem length_pctAux (p : ℚ) (cs : List ℚ) : (pctAux p cs).length = cs.length := by
  induction cs generalizing p with
  | nil => rfl
  | cons c cs ih => simp [pctAux, ih]

theorem length_pct_change (l : List ℚ) : (pct_change l).length = l.length := by
  cases l with
  | nil => rfl
  | cons c cs => simp [pct_change, length_pctAux]

theorem length_cummaxAux (m : ℚ) (cs : List ℚ) : (cummaxAux m cs).length = cs.length := by
  induction cs generalizing m with
  | nil => rfl
  | cons c cs ih => simp [cummaxAux, ih]

theorem length_cummax (l : List ℚ) : (cummax l).length = l.length := by
  cases l with
  | nil => rfl
  | cons c cs => simp [cummax, length_cummaxAux]

-- ### C3: the fewer-than-15-rows guard

/-- **C3.**  Whenever the date-filtered table has fewer than 15 rows the
cycle fails with `InsufficientData` (src/app.py lines 114-116): the
`st.stop()` sits before the feature block, so no derived series, KPI or
regime interval is produced for that parameter set — the pipeline's result
is the bare error. -/
theorem pipeline_insufficient (raws : List RawRow) (df : List Bar) (s e : Int) (p : Params)
    (hdf : load_data (some raws) = Except.ok df)
    (hlen : (filterRange s e df).length < 15) :
    pipeline (some raws) s e p = Except.error Err.insufficientData := by
  simp [pipeline, hdf, hlen]

/-- Witness for `pipeline_insufficient`: a single-row source filtered to at
most one row. -/
theorem pipeline_insufficient_witness :
    pipeline (some [⟨some 3, none, none, none, some 10, none⟩]) 0 9 ⟨2, 3, 2⟩ =
      Except.error Err.insufficientData :=
  pipeline_insufficient [⟨some 3, none, none, none, some 10, none⟩]
    (sortByDate (cleanRows [⟨some 3, none, none, none, some 10, none⟩])) 0 9 ⟨2, 3, 2⟩
    rfl (by decide)

-- ### C9: determinism of the feature computation

/-- **C9.**  The feature computation is deterministic: two runs on equal
filtered tables and equal parameter sets produce equal derived series —
all seven columns (`ret`, `maF`, `maS`, `peak`, `dd`, `volR2`, `reg`)
coincide.  The embedding of the feature block (src/app.py lines 119-124,
167) is a pure function, so this two-run equality is exact. -/
theorem compute_deterministic (d₁ d₂ : List Bar) (p₁ p₂ : Params)
    (hd : d₁ = d₂) (hp : p₁ = p₂) : compute d₁ p₁ = compute d₂ p₂ := by
  subst hd; subst hp; rfl

/-- Witness for `compute_deterministic` at a concrete table. -/
theorem compute_deterministic_witness :
    compute [⟨1, none, none, none, 10, none⟩] ⟨2, 3, 2⟩ =
      compute [⟨1, none, none, none, 10, none⟩] ⟨2, 3, 2⟩ :=
  compute_deterministic _ _ _ _ rfl rfl

-- ### C4: the regime flag versus the two moving averages

/-- **C4.**  `data["reg"] = (data["maF"] > data["maS"]).astype(int)`
(src/app.py line 167): the regime flag at row `i` is up exactly when both
moving averages are defined there and the short one exceeds the long one;
whenever either average is still NaN (fewer than `window` rows of
history), pandas evaluates the comparison as `False`, so the flag is
down. -/
theorem regime_iff (data : List Bar) (p : Params) (i : ℕ)
    (hi : i < (compute data p).reg.length) :
    ((compute data p).reg.getD i false = true ↔
      ∃ x y, (compute data p).maF.getD i none = some x ∧
        (compute data p).maS.getD i none = some y ∧ y < x) ∧
    (((compute data p).maF.getD i none = none ∨ (compute data p).maS.getD i none = none) →
      (compute data p).reg.getD i false = false) := by
  simp only [compute] at hi ⊢
  rw [List.length_zipWith, length_rollingMean, length_rollingMean, Nat.min_self] at hi
  have h₁ : i < (rollingMean p.maF (data.map Bar.clot)).length := by
    rw [length_rollingMean]; exact hi
  have h₂ : i < (rollingMean p.maS (data.map Bar.clot)).length := by
    rw [length_rollingMean]; exact hi
  rw [getD_zipWith optGt _ _ none none false h₁ h₂]
  rcases hF : (rollingMean p.maF (data.map Bar.clot)).getD i none with _ | x <;>
    rcases hS : (rollingMean p.maS (data.map Bar.clot)).getD i none with _ | y <;>
      simp [optGt]

/-- Witness for `regime_iff` at a concrete three-row table with windows 2
and 3. -/
theorem regime_iff_witness :
    ((compute [⟨1, none, none, none, 10, none⟩, ⟨2, none, none, none, 12, none⟩,
        ⟨3, none, none, none, 11, none⟩] ⟨2, 3, 2⟩).reg.getD 2 false = true ↔
      ∃ x y, (compute [⟨1, none, none, none, 10, none⟩, ⟨2, none, none, none, 12, none⟩,
        ⟨3, none, none, none, 11, none⟩] ⟨2, 3, 2⟩).maF.getD 2 none = some x ∧
        (compute [⟨1, none, none, none, 10, none⟩, ⟨2, none, none, none, 12, none⟩,
          ⟨3, none, none, none, 11, none⟩] ⟨2, 3, 2⟩).maS.getD 2 none = some y ∧ y < x) ∧
    (((compute [⟨1, none, none, none, 10, none⟩, ⟨2, none, none, none, 12, none⟩,
        ⟨3, none, none, none, 11, none⟩] ⟨2, 3, 2⟩).maF.getD 2 none = none ∨
      (compute [⟨1, none, none, none, 10, none⟩, ⟨2, none, none, none, 12, none⟩,
        ⟨3, none, none, none, 11, none⟩] ⟨2, 3, 2⟩).maS.getD 2 none = none) →
      (compute [⟨1, none, none, none, 10, none⟩, ⟨2, none, none, none, 12, none⟩,
        ⟨3, none, none, none, 11, none⟩] ⟨2, 3, 2⟩).reg.getD 2 false = false) :=
  regime_iff [⟨1, none, none, none, 10, none⟩, ⟨2, none, none, none, 12, none⟩,
    ⟨3, none, none, none, 11, none⟩] ⟨2, 3, 2⟩ 2 (by decide)

-- ### Pointwise facts about the running maximum

theorem getD_le_cummaxAux (cs : List ℚ) :
    ∀ (m : ℚ) (i : ℕ), i < cs.length → cs.getD i 0 ≤ (cummaxAux m cs).getD i 0 := by
  induction cs with
  | nil => intro m i h; simp at h
  | cons c cs ih =>
    intro m i h
    cases i with
    | zero => simp [cummaxAux]
    | succ j =>
      simp only [cummaxAux, List.getD_cons_succ]
      exact ih (max m c) j (by simpa using Nat.lt_of_succ_lt_succ h)

theorem cummaxAux_pos (cs : List ℚ) :
    ∀ m : ℚ, 0 < m → (∀ x ∈ cs, 0 < x) →
      ∀ i : ℕ, i < cs.length → 0 < (cummaxAux m cs).getD i 0 := by
  induction cs with
  | nil => intro m _ _ i h; simp at h
  | cons c cs ih =>
    intro m hm hall i h
    cases i with
    | zero => simpa [cummaxAux] using lt_max_of_lt_left hm
    | succ j =>
      simp only [cummaxAux, List.getD_cons_succ]
      exact ih (max m c) (lt_max_of_lt_left hm)
        (fun x hx => hall x (List.mem_cons_of_mem c hx)) j
        (by simpa using Nat.lt_of_succ_lt_succ h)

theorem getD_cummax_le (l : List ℚ) (i : ℕ) (h : i < l.length) :
    l.getD i 0 ≤ (cummax l).getD i 0 := by
  cases l with
  | nil => simp at h
  | cons c cs =>
    cases i with
    | zero => simp [cummax]
    | succ j =>
      simp only [cummax, List.getD_cons_succ]
      exact getD_le_cummaxAux cs c j (by simpa using Nat.lt_of_succ_lt_succ h)

theorem cummax_pos (l : List ℚ) (hall : ∀ x ∈ l, 0 < x) (i : ℕ) (h : i < l.length) :
    0 < (cummax l).getD i 0 := by
  cases l with
  | nil => simp at h
  | cons c cs =>
    cases i with
    | zero => simpa [cummax] using hall c (List.mem_cons_self c cs)
    | succ j =>
      simp only [cummax, List.getD_cons_succ]
      exact cummaxAux_pos cs c (hall c (List.mem_cons_self c cs))
        (fun x hx => hall x (List.mem_cons_of_mem c hx)) j
        (by simpa using Nat.lt_of_succ_lt_succ h)

theorem cummaxAux_mono (cs : List ℚ) :
    ∀ (m : ℚ) (i : ℕ), i + 1 < cs.length →
      (cummaxAux m cs).getD i 0 ≤ (cummaxAux m cs).getD (i + 1) 0 := by
  induction cs with
  | nil => intro m i h; simp at h
  | cons c cs ih =>
    intro m i h
    cases i with
    | zero =>
      cases cs with
      | nil => simp at h
      | cons c' cs' => simp [cummaxAux]
    | succ j =>
      simp only [cummaxAux, List.getD_cons_succ]
      exact ih (max m c) j (by simpa using Nat.lt_of_succ_lt_succ h)

theorem cummax_mono (l : List ℚ) (i : ℕ) (h : i + 1 < l.length) :
    (cummax l).getD i 0 ≤ (cummax l).getD (i + 1) 0 := by
  cases l with
  | nil => simp at h
  | cons c cs =>
    cases i with
    | zero =>
      cases cs with
      | nil => simp at h
      | cons c' cs' => simp [cummax, cummaxAux]
    | succ j =>
      simp only [cummax, List.getD_cons_succ]
      exact cummaxAux_mono cs c j (by simpa using Nat.lt_of_succ_lt_succ h)

-- ### C7: the cumulative peak never decreases

/-- **C7.**  `data["peak"] = data["clot"].cummax()` (src/app.py line 122)
is non-decreasing: every consecutive pair of entries of the `peak` series
satisfies `peak[i] ≤ peak[i+1]`. -/
theorem peak_nondecreasing (data : List Bar) (p : Params) (i : ℕ)
    (h : i + 1 < (compute data p).peak.length) :
    (compute data p).peak.getD i 0 ≤ (compute data p).peak.getD (i + 1) 0 := by
  simp only [compute] at h ⊢
  exact cummax_mono _ i (by rwa [length_cummax] at h)

/-- Witness for `peak_nondecreasing` at a falling three-row series. -/
theorem peak_nondecreasing_witness :
    (compute [⟨1, none, none, none, 10, none⟩, ⟨2, none, none, none, 7, none⟩,
      ⟨3, none, none, none, 9, none⟩] ⟨2, 3, 2⟩).peak.getD 0 0 ≤
      (compute [⟨1, none, none, none, 10, none⟩, ⟨2, none, none, none, 7, none⟩,
        ⟨3, none, none, none, 9, none⟩] ⟨2, 3, 2⟩).peak.getD 1 0 :=
  peak_nondecreasing [⟨1, none, none, none, 10, none⟩, ⟨2, none, none, none, 7, none⟩,
    ⟨3, none, none, none, 9, none⟩] ⟨2, 3, 2⟩ 0 (by decide)

-- ### C6: the drawdown is non-positive and vanishes exactly at peaks

/-- **C6.**  With positive closes, `data["dd"] = data["clot"]/data["peak"] - 1`
(src/app.py line 123) is never positive, and it is zero exactly at the rows
whose close equals the running peak. -/
theorem drawdown_spec (data : List Bar) (p : Params) (i : ℕ)
    (hpos : ∀ b ∈ data, 0 < b.clot) (hi : i < (compute data p).dd.length) :
    (compute data p).dd.getD i 0 ≤ 0 ∧
      ((compute data p).dd.getD i 0 = 0 ↔
        (data.map Bar.clot).getD i 0 = (compute data p).peak.getD i 0) := by
  simp only [compute] at hi ⊢
  rw [List.length_zipWith, length_cummax, Nat.min_self] at hi
  have hlen2 : i < (cummax (data.map Bar.clot)).length := by rw [length_cummax]; exact hi
  rw [getD_zipWith _ _ _ 0 0 0 hi hlen2]
  have hcle : (data.map Bar.clot).getD i 0 ≤ (cummax (data.map Bar.clot)).getD i 0 :=
    getD_cummax_le _ _ hi
  have hppos : 0 < (cummax (data.map Bar.clot)).getD i 0 := by
    refine cummax_pos _ ?_ _ hi
    intro x hx
    obtain ⟨b, hb, rfl⟩ := List.mem_map.mp hx
    exact hpos b hb
  constructor
  · have hle1 : (data.map Bar.clot).getD i 0 / (cummax (data.map Bar.clot)).getD i 0 ≤ 1 :=
      (div_le_one hppos).mpr hcle
    linarith
  · constructor
    · intro h
      have hdiv : (data.map Bar.clot).getD i 0 / (cummax (data.map Bar.clot)).getD i 0 = 1 := by
        linarith
      exact (div_eq_one_iff_eq hppos.ne').mp hdiv
    · intro h
      rw [h, div_self hppos.ne']
      ring

/-- Witness for `drawdown_spec`: second row of a falling series. -/
theorem drawdown_spec_witness :
    (0:ℚ) < 10 ∧
      ((compute [⟨1, none, none, none, 10, none⟩, ⟨2, none, none, none, 7, none⟩]
        ⟨2, 3, 2⟩).dd.getD 1 0 ≤ 0 ∧
      ((compute [⟨1, none, none, none, 10, none⟩, ⟨2, none, none, none, 7, none⟩]
        ⟨2, 3, 2⟩).dd.getD 1 0 = 0 ↔
        (([⟨1, none, none, none, 10, none⟩, ⟨2, none, none, none, 7, none⟩] :
          List Bar).map Bar.clot).getD 1 0 =
          (compute [⟨1, none, none, none, 10, none⟩, ⟨2, none, none, none, 7, none⟩]
            ⟨2, 3, 2⟩).peak.getD 1 0)) :=
  ⟨by norm_num,
    drawdown_spec [⟨1, none, none, none, 10, none⟩, ⟨2, none, none, none, 7, none⟩]
      ⟨2, 3, 2⟩ 1 (by decide) (by decide)⟩

-- ### Facts about the left fold of `max`

theorem foldl_max_mem (x : ℚ) (xs : List ℚ) : xs.foldl max x ∈ x :: xs := by
  induction xs generalizing x with
  | nil => simp
  | cons y ys ih =>
    have h := ih (max x y)
    rcases List.mem_cons.mp h with h' | h'
    · rcases max_choice x y with hm | hm <;> rw [List.foldl_cons, h', hm] <;> simp
    · simp [List.foldl_cons, List.mem_cons.mpr (Or.inr (List.mem_cons_of_mem y h'))]

theorem le_foldl_max (x : ℚ) (xs : List ℚ) : x ≤ xs.foldl max x := by
  induction xs generalizing x with
  | nil => exact le_refl x
  | cons y ys ih => exact le_trans (le_max_left x y) (ih (max x y))

theorem mem_le_foldl_max (x : ℚ) (xs : List ℚ) : ∀ y ∈ xs, y ≤ xs.foldl max x := by
  induction xs generalizing x with
  | nil => intro y hy; simp at hy
  | cons z zs ih =>
    intro y hy
    rcases List.mem_cons.mp hy with h' | h'
    · subst h'
      exact le_trans (le_max_right x y) (le_foldl_max (max x y) zs)
    · exact ih (max x z) y h'

-- ### C10: `max_high` and `avg_vol` skip missing cells

/-- **C10.**  `max_high = data["haut"].max()` and
`avg_vol = data["vol"].mean()` (src/app.py lines 128-129) skip NaN cells:
whenever at least one `haut` (resp. `vol`) cell is present, `max_high` is
defined and is the greatest present `haut` value, and `avg_vol` is defined
and is the mean of exactly the present `vol` values — missing cells are
never propagated into either scalar. -/
theorem kpi_skip_missing (data : List Bar) (d : Derived)
    (hh : ∃ b ∈ data, b.haut ≠ none) (hv : ∃ b ∈ data, b.vol ≠ none) :
    (∃ m, (summarize data d).max_high = some m ∧ m ∈ data.filterMap Bar.haut ∧
      ∀ x ∈ data.filterMap Bar.haut, x ≤ m) ∧
    (summarize data d).avg_vol =
      some ((data.filterMap Bar.vol).sum / ((data.filterMap Bar.vol).length : ℚ)) := by
  have hne : data.filterMap Bar.haut ≠ [] := by
    obtain ⟨b, hb, hb'⟩ := hh
    rcases hx : b.haut with _ | x
    · exact absurd hx hb'
    · exact List.ne_nil_of_mem (List.mem_filterMap.mpr ⟨b, hb, hx⟩)
  have hnev : data.filterMap Bar.vol ≠ [] := by
    obtain ⟨b, hb, hb'⟩ := hv
    rcases hx : b.vol with _ | x
    · exact absurd hx hb'
    · exact List.ne_nil_of_mem (List.mem_filterMap.mpr ⟨b, hb, hx⟩)
  constructor
  · rcases hH : data.filterMap Bar.haut with _ | ⟨x, xs⟩
    · exact absurd hH hne
    · refine ⟨xs.foldl max x, ?_, ?_, ?_⟩
      · simp [summarize, listMax?, hH]
      · exact foldl_max_mem x xs
      · intro y hy
        rcases List.mem_cons.mp hy with h' | h'
        · subst h'; exact le_foldl_max y xs
        · exact mem_le_foldl_max x xs y h'
  · rcases hV : data.filterMap Bar.vol with _ | ⟨x, xs⟩
    · exact absurd hV hnev
    · simp [summarize, mean?, hV]

/-- Witness for `kpi_skip_missing`: one present and one missing cell in
each of the `haut` and `vol` columns. -/
theorem kpi_skip_missing_witness :
    (∃ m, (summarize [⟨1, none, some 5, none, 10, none⟩, ⟨2, none, none, none, 12, some 3⟩]
        (compute [⟨1, none, some 5, none, 10, none⟩, ⟨2, none, none, none, 12, some 3⟩]
          ⟨2, 3, 2⟩)).max_high = some m ∧
      m ∈ ([⟨1, none, some 5, none, 10, none⟩, ⟨2, none, none, none, 12, some 3⟩] :
        List Bar).filterMap Bar.haut ∧
      ∀ x ∈ ([⟨1, none, some 5, none, 10, none⟩, ⟨2, none, none, none, 12, some 3⟩] :
        List Bar).filterMap Bar.haut, x ≤ m) ∧
    (summarize [⟨1, none, some 5, none, 10, none⟩, ⟨2, none, none, none, 12, some 3⟩]
      (compute [⟨1, none, some 5, none, 10, none⟩, ⟨2, none, none, none, 12, some 3⟩]
        ⟨2, 3, 2⟩)).avg_vol =
      some ((([⟨1, none, some 5, none, 10, none⟩, ⟨2, none, none, none, 12, some 3⟩] :
        List Bar).filterMap Bar.vol).sum /
        ((([⟨1, none, some 5, none, 10, none⟩, ⟨2, none, none, none, 12, some 3⟩] :
          List Bar).filterMap Bar.vol).length : ℚ)) :=
  kpi_skip_missing [⟨1, none, some 5, none, 10, none⟩, ⟨2, none, none, none, 12, some 3⟩]
    (compute [⟨1, none, some 5, none, 10, none⟩, ⟨2, none, none, none, 12, some 3⟩] ⟨2, 3, 2⟩)
    (by decide) (by decide)

-- ### Structure of the regime bands

theorem segGo_ne_nil (rest : List Bool) :
    ∀ (prev : Bool) (s i : ℕ), segGo prev s i rest ≠ [] := by
  induction rest with
  | nil => intro prev s i; simp [segGo]
  | cons r rest ih =>
    intro prev s i
    by_cases h : r = prev
    · simpa [segGo, h] using ih prev s (i + 1)
    · simp [segGo, h]

theorem segGo_head (rest : List Bool) :
    ∀ (prev : Bool) (s i : ℕ) (iv : RegimeInterval) (tl : List RegimeInterval),
      segGo prev s i rest = iv :: tl → iv.startIdx = s ∧ iv.regime = prev := by
  induction rest with
  | nil =>
    intro prev s i iv tl h
    simp only [segGo, List.cons.injEq] at h
    rw [← h.1]
    exact ⟨rfl, rfl⟩
  | cons r rest ih =>
    intro prev s i iv tl h
    by_cases hr : r = prev
    · rw [segGo, if_neg (by simp [hr])] at h
      exact ih prev s (i + 1) iv tl h
    · rw [segGo, if_pos (by simp [hr])] at h
      rw [← (List.cons.injEq ..).mp h |>.1]
      exact ⟨rfl, rfl⟩

theorem rangesOf_cons (iv : RegimeInterval) (tl : List RegimeInterval) :
    rangesOf (iv :: tl) =
      List.range' iv.startIdx (iv.endIdx + 1 - iv.startIdx) ++ rangesOf tl := by
  simp [rangesOf]

theorem segGo_ranges (rest : List Bool) :
    ∀ (prev : Bool) (s i : ℕ), s < i →
      rangesOf (segGo prev s i rest) = List.range' s (i + rest.length - s) := by
  induction rest with
  | nil =>
    intro prev s i hs
    simp only [segGo, rangesOf, List.map_cons, List.map_nil, List.flatten]
    have h0 : i - 1 + 1 - s = i + List.length ([] : List Bool) - s := by
      simp only [List.length_nil]
      omega
    simp [h0]
  | cons r rest ih =>
    intro prev s i hs
    by_cases hr : r = prev
    · rw [segGo, if_neg (by simp [hr])]
      rw [ih prev s (i + 1) (by omega)]
      have h0 : i + 1 + rest.length - s = i + (r :: rest).length - s := by
        simp only [List.length_cons]
        omega
      rw [h0]
    · rw [segGo, if_pos (by simp [hr])]
      rw [rangesOf_cons, ih r i (i + 1) (by omega)]
      have e1 : i - 1 + 1 - s = i - s := by omega
      have e2 : i + 1 + rest.length - i = rest.length + 1 := by omega
      rw [e1, e2]
      have h3 := List.range'_append s (i - s) (rest.length + 1) 1
      simp only [one_mul] at h3
      have e4 : s + (i - s) = i := by omega
      rw [e4] at h3
      rw [h3]
      have e5 : rest.length + 1 + (i - s) = i + (r :: rest).length - s := by
        simp only [List.length_cons]
        omega
      rw [e5]

theorem segGo_chain_contig (rest : List Bool) :
    ∀ (prev : Bool) (s i : ℕ), s < i →
      List.Chain' (fun a b => b.startIdx = a.endIdx + 1) (segGo prev s i rest) := by
  induction rest with
  | nil => intro prev s i _; simp [segGo]
  | cons r rest ih =>
    intro prev s i hs
    by_cases hr : r = prev
    · rw [segGo, if_neg (by simp [hr])]
      exact ih prev s (i + 1) (by omega)
    · rw [segGo, if_pos (by simp [hr])]
      rcases hrec : segGo r i (i + 1) rest with _ | ⟨iv, tl⟩
      · exact absurd hrec (segGo_ne_nil rest r i (i + 1))
      · have hhead := segGo_head rest r i (i + 1) iv tl hrec
        refine List.Chain'.cons ?_ (hrec ▸ ih r i (i + 1) (by omega))
        simp only [hhead.1]
        omega

theorem segGo_chain_regime (rest : List Bool) :
    ∀ (prev : Bool) (s i : ℕ),
      List.Chain' (fun a b => a.regime ≠ b.regime) (segGo prev s i rest) := by
  induction rest with
  | nil => intro prev s i; simp [segGo]
  | cons r rest ih =>
    intro prev s i
    by_cases hr : r = prev
    · rw [segGo, if_neg (by simp [hr])]
      exact ih prev s (i + 1)
    · rw [segGo, if_pos (by simp [hr])]
      rcases hrec : segGo r i (i + 1) rest with _ | ⟨iv, tl⟩
      · exact absurd hrec (segGo_ne_nil rest r i (i + 1))
      · have hhead := segGo_head rest r i (i + 1) iv tl hrec
        refine List.Chain'.cons ?_ (hrec ▸ ih r i (i + 1))
        simp only [hhead.2]
        exact fun hcon => hr hcon.symm

theorem segGo_wellformed (rest : List Bool) :
    ∀ (prev : Bool) (s i : ℕ), s < i →
      ∀ iv ∈ segGo prev s i rest, iv.startIdx ≤ iv.endIdx := by
  induction rest with
  | nil =>
    intro prev s i hs iv hiv
    simp only [segGo, List.mem_singleton] at hiv
    subst hiv
    simp only
    omega
  | cons r rest ih =>
    intro prev s i hs iv hiv
    by_cases hr : r = prev
    · rw [segGo, if_neg (by simp [hr])] at hiv
      exact ih prev s (i + 1) (by omega) iv hiv
    · rw [segGo, if_pos (by simp [hr])] at hiv
      rcases List.mem_cons.mp hiv with h' | h'
      · subst h'
        simp only
        omega
      · exact ih r i (i + 1) (by omega) iv h'

/-- Contiguous well-formed bands have strictly increasing start indices. -/
theorem contig_chain_lt :
    ∀ l : List RegimeInterval,
      List.Chain' (fun a b => b.startIdx = a.endIdx + 1) l →
      (∀ iv ∈ l, iv.startIdx ≤ iv.endIdx) →
      List.Chain' (fun a b => a.startIdx < b.startIdx) l
  | [] , _, _ => List.chain'_nil
  | [_], _, _ => List.chain'_singleton _
  | a :: b :: t, hc, hm => by
    rw [List.chain'_cons] at hc ⊢
    refine ⟨?_, contig_chain_lt (b :: t) hc.2
      fun iv hiv => hm iv (List.mem_cons_of_mem a hiv)⟩
    have ha := hm a (List.mem_cons_self a (b :: t))
    omega

-- ### C5: the shading pass partitions the index range

/-- **C5.**  For every non-empty regime sequence, the bands produced by the
`add_vrect` loop (src/app.py lines 176-187) cover every input index exactly
once — their concatenated index ranges are exactly `0, 1, …, n-1` in
order — are contiguous (`next.start = prev.end + 1`), non-overlapping and
ordered ascending (start indices, hence start dates of the date-sorted
table, strictly increase), adjacent bands never carry the same regime
value, and a sequence of length 1 yields exactly one band. -/
theorem segmentRegimes_spec (regs : List Bool) (hne : regs ≠ []) :
    segmentRegimes regs ≠ [] ∧
    rangesOf (segmentRegimes regs) = List.range regs.length ∧
    List.Chain' (fun a b => b.startIdx = a.endIdx + 1) (segmentRegimes regs) ∧
    List.Chain' (fun a b => a.startIdx < b.startIdx) (segmentRegimes regs) ∧
    List.Chain' (fun a b => a.regime ≠ b.regime) (segmentRegimes regs) ∧
    (∀ iv ∈ segmentRegimes regs, iv.startIdx ≤ iv.endIdx) ∧
    (regs.length = 1 → (segmentRegimes regs).length = 1) := by
  rcases regs with _ | ⟨r, rest⟩
  · exact absurd rfl hne
  · have hcontig := segGo_chain_contig rest r 0 1 (by omega)
    have hwf := segGo_wellformed rest r 0 1 (by omega)
    refine ⟨segGo_ne_nil rest r 0 1, ?_, hcontig, contig_chain_lt _ hcontig hwf,
      segGo_chain_regime rest r 0 1, hwf, ?_⟩
    · rw [show segmentRegimes (r :: rest) = segGo r 0 1 rest from rfl,
        segGo_ranges rest r 0 1 (by omega), List.range_eq_range']
      congr 1
      simp only [List.length_cons]
      omega
    · intro hlen
      have hlen' : rest.length + 1 = 1 := by simpa using hlen
      have hrest : rest = [] := List.length_eq_zero.mp (by omega)
      subst hrest
      rfl

/-- Witness for `segmentRegimes_spec` at the concrete regime sequence
`[up, down, down]`. -/
theorem segmentRegimes_spec_witness :
    segmentRegimes [true, false, false] ≠ [] ∧
    rangesOf (segmentRegimes [true, false, false]) = List.range 3 ∧
    List.Chain' (fun a b => b.startIdx = a.endIdx + 1) (segmentRegimes [true, false, false]) ∧
    List.Chain' (fun a b => a.startIdx < b.startIdx) (segmentRegimes [true, false, false]) ∧
    List.Chain' (fun a b => a.regime ≠ b.regime) (segmentRegimes [true, false, false]) ∧
    (∀ iv ∈ segmentRegimes [true, false, false], iv.startIdx ≤ iv.endIdx) ∧
    (([true, false, false] : List Bool).length = 1 →
      (segmentRegimes [true, false, false]).length = 1) :=
  segmentRegimes_spec [true, false, false] (by simp)

-- ### Pointwise description of the return series

theorem getD_pctAux (cs : List ℚ) :
    ∀ (p : ℚ) (j : ℕ), j < cs.length →
      (pctAux p cs).getD j none = some (cs.getD j 0 / (p :: cs).getD j 0 - 1) := by
  induction cs with
  | nil => intro p j h; simp at h
  | cons c cs ih =>
    intro p j h
    cases j with
    | zero => simp [pctAux]
    | succ k =>
      simp only [pctAux, List.getD_cons_succ]
      exact ih c k (by simpa using Nat.lt_of_succ_lt_succ h)

theorem getD_pct_change (l : List ℚ) (j : ℕ) (h1 : 1 ≤ j) (h2 : j < l.length) :
    (pct_change l).getD j none = some (l.getD j 0 / l.getD (j - 1) 0 - 1) := by
  cases l with
  | nil => simp at h2
  | cons c cs =>
    cases j with
    | zero => omega
    | succ k =>
      simp only [pct_change, List.getD_cons_succ, Nat.succ_sub_one]
      exact getD_pctAux cs c k (by simpa using Nat.lt_of_succ_lt_succ h2)

theorem getD_map' {α β : Type} (f : α → β) (l : List α) (d : α) {i : ℕ} (h : i < l.length) :
    (l.map f).getD i (f d) = f (l.getD i d) := by
  have h' : i < (l.map f).length := by simpa using h
  rw [List.getD_eq_getElem _ _ h', List.getD_eq_getElem _ _ h, List.getElem_map]

-- ### The rolling-std window at a fully defined position

theorem getD_rollingStd2 (v : ℕ) (s : List (Option ℚ)) (i : ℕ) (h : i < s.length) :
    (rollingStd2 v s).getD i none =
      if v ≤ (((s.take (i + 1)).drop (i + 1 - v)).filterMap id).length then
        if 2 ≤ (((s.take (i + 1)).drop (i + 1 - v)).filterMap id).length then
          some (sampleVar (((s.take (i + 1)).drop (i + 1 - v)).filterMap id))
        else none
      else none := by
  unfold rollingStd2
  exact getD_map_range _ none h

theorem pct_window_eq (l : List ℚ) (v i : ℕ) (hv : 1 ≤ v) (hvi : v ≤ i)
    (hin : i < l.length) :
    ((pct_change l).take (i + 1)).drop (i + 1 - v) =
      (List.range v).map fun k =>
        some (l.getD (i + 1 - v + k) 0 / l.getD (i - v + k) 0 - 1) := by
  have hlen : (pct_change l).length = l.length := length_pct_change l
  apply List.ext_getElem
  · simp only [List.length_drop, List.length_take, List.length_map, List.length_range, hlen]
    omega
  · intro k hk1 hk2
    have hkv : k < v := by simpa using hk2
    rw [List.getElem_drop, List.getElem_take]
    have hj : i + 1 - v + k < (pct_change l).length := by rw [hlen]; omega
    rw [← List.getD_eq_getElem (pct_change l) none hj,
      getD_pct_change l (i + 1 - v + k) (by omega) (by omega),
      List.getElem_map, List.getElem_range]
    have he : i + 1 - v + k - 1 = i - v + k := by omega
    rw [he]

theorem rollingStd2_pct_defined (l : List ℚ) (v i : ℕ) (hv : 2 ≤ v) (hvi : v ≤ i)
    (hin : i < l.length) :
    (rollingStd2 v (pct_change l)).getD i none =
      some (sampleVar ((List.range v).map fun k =>
        l.getD (i + 1 - v + k) 0 / l.getD (i - v + k) 0 - 1)) := by
  have hplen : i < (pct_change l).length := by rw [length_pct_change]; exact hin
  have hvals : (((pct_change l).take (i + 1)).drop (i + 1 - v)).filterMap id =
      (List.range v).map fun k => l.getD (i + 1 - v + k) 0 / l.getD (i - v + k) 0 - 1 := by
    rw [pct_window_eq l v i (by omega) hvi hin, List.filterMap_map]
    exact List.filterMap_eq_map _ ▸ rfl
  rw [getD_rollingStd2 v (pct_change l) i hplen, hvals, List.length_map, List.length_range,
    if_pos (le_refl v), if_pos hv]

theorem rollingStd2_pct_undefined (l : List ℚ) (v i : ℕ) (hvi : i < v) (hin : i < l.length) :
    (rollingStd2 v (pct_change l)).getD i none = none := by
  have hplen : i < (pct_change l).length := by rw [length_pct_change]; exact hin
  rw [getD_rollingStd2 v (pct_change l) i hplen]
  have h0 : i + 1 - v = 0 := by omega
  rw [h0, List.drop_zero]
  cases l with
  | nil => simp at hin
  | cons c cs =>
    have hle : (((pct_change (c :: cs)).take (i + 1)).filterMap id).length ≤ i := by
      simp only [pct_change, List.take_succ_cons]
      have h1 : (List.filterMap id (none :: (pctAux c cs).take i)).length =
          (List.filterMap id ((pctAux c cs).take i)).length := by
        simp
      rw [h1]
      refine le_trans (List.length_filterMap_le id _) ?_
      rw [List.length_take]
      exact min_le_left _ _
    rw [if_neg (by omega)]

-- ### C8: definedness and value of the rolling volatility

/-- **C8, counterexample.**  With `volatility_window = 1` the rolling
volatility is undefined *everywhere* — `rolling(1).std()` has `ddof = 1`,
so a one-observation window yields NaN — although index `1 ≥ v = 1` lies
inside a 3-row series, where the claim asserts a defined value.  So the
claim fails for `v = 1` (every `v > 0` is in its scope). -/
theorem rolling_volatility_v1_counterexample :
    (1:ℕ) ≤ 1 ∧ 1 < ([⟨1, none, none, none, 1, none⟩, ⟨2, none, none, none, 2, none⟩,
      ⟨3, none, none, none, 3, none⟩] : List Bar).length ∧
    (compute [⟨1, none, none, none, 1, none⟩, ⟨2, none, none, none, 2, none⟩,
      ⟨3, none, none, none, 3, none⟩] ⟨2, 3, 1⟩).volR2.getD 1 none = none :=
  ⟨le_refl 1, by decide, by decide⟩

/-- **C8, amended.**  For `volatility_window = v ≥ 2` (the UI slider only
offers `v ≥ 10`) and any row `i` of the filtered series, the rolling
volatility (src/app.py line 124, squared values) is defined iff `i ≥ v`,
and where defined it equals the sample variance of the returns
`close[j]/close[j-1] - 1` for `j = i-v+1 … i`, annualized by `252`
(i.e. the square of "sample std × √252").  For `i < v` the window still
contains the undefined first return, so the value is NaN. -/
theorem rolling_volatility_spec (data : List Bar) (p : Params) (i : ℕ)
    (hv : 2 ≤ p.vol_w) (hi : i < (compute data p).volR2.length) :
    (((compute data p).volR2.getD i none).isSome = true ↔ p.vol_w ≤ i) ∧
    (p.vol_w ≤ i →
      (compute data p).volR2.getD i none =
        some (252 * sampleVar ((List.range p.vol_w).map fun k =>
          (data.map Bar.clot).getD (i + 1 - p.vol_w + k) 0 /
            (data.map Bar.clot).getD (i - p.vol_w + k) 0 - 1))) := by
  simp only [compute] at hi ⊢
  have hin : i < (data.map Bar.clot).length := by
    simpa [length_rollingStd2, length_pct_change] using hi
  have hlen2 : i < (rollingStd2 p.vol_w (pct_change (data.map Bar.clot))).length := by
    rw [length_rollingStd2, length_pct_change]
    exact hin
  have hmap : ((rollingStd2 p.vol_w (pct_change (data.map Bar.clot))).map
      (Option.map fun x => 252 * x)).getD i none =
      Option.map (fun x => 252 * x)
        ((rollingStd2 p.vol_w (pct_change (data.map Bar.clot))).getD i none) :=
    getD_map' (Option.map fun x => 252 * x) _ none hlen2
  rw [hmap]
  by_cases hcase : p.vol_w ≤ i
  · rw [rollingStd2_pct_defined (data.map Bar.clot) p.vol_w i hv hcase hin]
    exact ⟨by simp [hcase], fun _ => by simp⟩
  · rw [rollingStd2_pct_undefined (data.map Bar.clot) p.vol_w i (by omega) hin]
    exact ⟨by simp [hcase], fun hco => absurd hco hcase⟩

/-- Witness for `rolling_volatility_spec`: `v = 2`, row 2 of a three-row
series. -/
theorem rolling_volatility_spec_witness :
    (((compute [⟨1, none, none, none, 1, none⟩, ⟨2, none, none, none, 2, none⟩,
      ⟨3, none, none, none, 3, none⟩] ⟨5, 7, 2⟩).volR2.getD 2 none).isSome = true ↔
        (⟨5, 7, 2⟩ : Params).vol_w ≤ 2) ∧
    ((⟨5, 7, 2⟩ : Params).vol_w ≤ 2 →
      (compute [⟨1, none, none, none, 1, none⟩, ⟨2, none, none, none, 2, none⟩,
        ⟨3, none, none, none, 3, none⟩] ⟨5, 7, 2⟩).volR2.getD 2 none =
        some (252 * sampleVar ((List.range (⟨5, 7, 2⟩ : Params).vol_w).map fun k =>
          (([⟨1, none, none, none, 1, none⟩, ⟨2, none, none, none, 2, none⟩,
            ⟨3, none, none, none, 3, none⟩] : List Bar).map Bar.clot).getD
              (2 + 1 - (⟨5, 7, 2⟩ : Params).vol_w + k) 0 /
            (([⟨1, none, none, none, 1, none⟩, ⟨2, none, none, none, 2, none⟩,
              ⟨3, none, none, none, 3, none⟩] : List Bar).map Bar.clot).getD
                (2 - (⟨5, 7, 2⟩ : Params).vol_w + k) 0 - 1))) :=
  rolling_volatility_spec [⟨1, none, none, none, 1, none⟩, ⟨2, none, none, none, 2, none⟩,
    ⟨3, none, none, none, 3, none⟩] ⟨5, 7, 2⟩ 2 (by decide) (by decide)
